import Mathlib

/-!
Board: fixed-point display helpers.

A shallow embedding of `src/lcd.cpp` (`printLabeledFixed`, `write`) and of the
fixed-point declarations of `src/Headers/fixed_point.h`.

Machine integers are mathematical integers with explicit two's-complement
narrowing (`wrap32`).  `int`, `int32_t` and `fixed16_t` are all taken to be
32 bits wide, signed overflow wraps around, and `>>` on a signed operand is
the arithmetic shift.
-/

namespace Board

/-! ## 32-bit machine arithmetic -/

/-- Least `int32_t`. -/
def INT32_MIN : Int := -2147483648

/-- Greatest `int32_t`. -/
def INT32_MAX : Int := 2147483647

/-- The signed 32-bit range. -/
def inInt32 (n : Int) : Prop := INT32_MIN ≤ n ∧ n ≤ INT32_MAX

instance (n : Int) : Decidable (inInt32 n) := by
  unfold inInt32; infer_instance

/-- Two's-complement narrowing of a mathematical integer to `int32_t`. -/
def wrap32 (n : Int) : Int := (n + 2147483648) % 4294967296 - 2147483648

/-- The 32 bits of an `int32_t`, read as an unsigned number. -/
def toU32 (n : Int) : Nat := (n % 4294967296).toNat

/-- Bitwise `a & b` on `int32_t`: the bit patterns are and-ed and the result
is read back as a signed number. -/
def and32 (a b : Int) : Int := wrap32 (Int.ofNat (toU32 a &&& toU32 b))

/-- Left shift `a << n` on `int32_t`, wrapping. -/
def shl32 (a : Int) (n : Nat) : Int := wrap32 (a * 2 ^ n)

/-- Right shift `a >> n` on `int32_t`: the arithmetic (sign-propagating)
shift. -/
def sar32 (a : Int) (n : Nat) : Int := a >>> n

/-- The `abs` of Arduino.h, `((x)>0?(x):-(x))`, on `int32_t`. -/
def abs32 (x : Int) : Int := if x > 0 then x else wrap32 (-x)

/-! ## `fixed_point.h` -/

/-- `#define FIXED_SHIFT 16`. -/
def FIXED_SHIFT : Nat := 16

/-- The real a `fixed16_t` denotes when it is read with `shift` fractional
bits (`typedef int32_t fixed16_t; // 16.16: 32,767.9999847 to -32,768.0`). -/
def fixedValue (stored : Int) (shift : Nat) : ℚ := (stored : ℚ) / 2 ^ shift

/-! ## `lcd.cpp`: `printLabeledFixed` -/

/-- `fixed16_t fixedOne = 1 << shift;` -/
def fixedOne (shift : Nat) : Int := shl32 1 shift

/-- `int32_t component = value >> shift;` -/
def component (value : Int) (shift : Nat) : Int := sar32 value shift

/-- `int32_t fractionalRaw = value & (fixedOne - 1);` -/
def fractionalRaw (value : Int) (shift : Nat) : Int :=
  and32 value (wrap32 (fixedOne shift - 1))

/-- `int32_t fractionalPart = (fractionalRaw * 1000) >> shift;` (the value
before the sign fix-up). -/
def fractionalScaled (value : Int) (shift : Nat) : Int :=
  sar32 (wrap32 (fractionalRaw value shift * 1000)) shift

/-- The final `fractionalPart`, after
`if (value < 0) { fractionalPart = abs(fractionalPart); }`. -/
def fractionalPart (value : Int) (shift : Nat) : Int :=
  if value < 0 then abs32 (fractionalScaled value shift)
  else fractionalScaled value shift

/-- The conversion `%ld`. -/
def fmtLd (n : Int) : List Char :=
  if n < 0 then '-' :: Nat.toDigits 10 n.natAbs else Nat.toDigits 10 n.natAbs

/-- The conversion `%0<width>ld`: zeros are inserted after the sign until the
field is `width` characters wide; a longer number is printed in full. -/
def fmt0Ld (width : Nat) (n : Int) : List Char :=
  let digits := Nat.toDigits 10 n.natAbs
  if n < 0 then '-' :: (List.replicate (width - 1 - digits.length) '0' ++ digits)
  else List.replicate (width - digits.length) '0' ++ digits

/-- Size of `char buffer[32]`. -/
def BUFFER_SIZE : Nat := 32

/-- The text in `buffer` after
`snprintf(buffer, sizeof(buffer), "%s%ld.%02ld", label, (long)component, (long)fractionalPart)`:
at most `sizeof(buffer) - 1` characters are kept. -/
def printLabeledFixedText (label : List Char) (value : Int) (shift : Nat) : List Char :=
  (label ++ fmtLd (component value shift) ++ '.' :: fmt0Ld 2 (fractionalPart value shift)).take
    (BUFFER_SIZE - 1)

/-! ## `lcd.cpp`: `write` -/

/-- One call on the display driver `lcd`. -/
inductive LcdOp where
  | clear : LcdOp
  | setCursor : Nat → Nat → LcdOp
  | print : List Char → LcdOp
  deriving DecidableEq, Repr

/-- The function `write`.  The driver is the list of calls made on it so far;
`lcdMaxX` and `lcdMaxY` are the constants `LCD_MAX_X` and `LCD_MAX_Y` of
`Headers/lcd.h`. -/
def write (lcdMaxX lcdMaxY : Nat) (x y : Nat) (text : List Char) (clearBeforeWrite : Bool)
    (lcd : List LcdOp) : List LcdOp :=
  if x < lcdMaxX ∧ y < lcdMaxY then
    let lcd1 := if clearBeforeWrite then lcd ++ [LcdOp.clear] else lcd
    let lcd2 := lcd1 ++ [LcdOp.setCursor x y]
    lcd2 ++ [LcdOp.print text]
  else lcd

/-- The function `printLabeledFixed`, as its effect on the driver (`delay`
does not touch it). -/
def printLabeledFixed (lcdMaxX lcdMaxY : Nat) (x y : Nat) (label : List Char) (value : Int)
    (clearBeforeWrite : Bool) (shift : Nat) (lcd : List LcdOp) : List LcdOp :=
  write lcdMaxX lcdMaxY x y (printLabeledFixedText label value shift) clearBeforeWrite lcd

/-! ## The fixed-point library

`fixed_point.h` only declares `toFixed`, `fromFixed`, `fixedDivide` and
`fixedLog2`; their bodies are not part of the sources. -/

/-- The error kinds of the library. -/
inductive FixedError where
  | range : FixedError
  | overflow : FixedError
  | divideByZero : FixedError
  | domain : FixedError
  deriving DecidableEq, Repr

/-- Modelled from the spec: the body of `toFixed` (only its prototype is in
`fixed_point.h`).  A shift outside `[0, 31]` is a range error; otherwise the
result is `integer * 2^shift`, an overflow error when that does not fit in
32 bits. -/
def toFixed (integer : Int) (shift : Nat) : Except FixedError Int :=
  if shift > 31 then Except.error FixedError.range
  else if inInt32 (integer * 2 ^ shift) then Except.ok (integer * 2 ^ shift)
  else Except.error FixedError.overflow

/-- Modelled from the spec: the body of `fromFixed` (only its prototype is in
`fixed_point.h`).  An arithmetic right shift; it always succeeds. -/
def fromFixed (value : Int) (shift : Nat) : Int := sar32 value shift

/-- Modelled from the spec: the body of `fixedDivide` (only its prototype is
in `fixed_point.h`).  `(widen(a) << shift) / b` in a 64-bit intermediate,
narrowed; a zero divisor is a divide-by-zero error. -/
def fixedDivide (a b : Int) (shift : Nat) : Except FixedError Int :=
  if shift > 31 then Except.error FixedError.range
  else if b = 0 then Except.error FixedError.divideByZero
  else
    let q := Int.tdiv (a * 2 ^ shift) b
    if inInt32 q then Except.ok q else Except.error FixedError.overflow

/-- Modelled from the spec: step 1 of `fixedLog2`, the position of the most
significant set bit, found by comparing against successive powers of two. -/
def msbPosition (value : Nat) : Nat :=
  (List.range 32).foldl (fun acc k => if 2 ^ k ≤ value then k else acc) 0

/-- Modelled from the spec: one refinement iteration of `fixedLog2` (step 3).
The remainder is squared; when it reaches 2 it is halved and the next
fractional bit, most significant first, is set. -/
def log2Step (shift : Nat) (state : Nat × Nat) (k : Nat) : Nat × Nat :=
  let squared := (state.1 * state.1) >>> shift
  if 2 ^ (shift + 1) ≤ squared then (squared >>> 1, state.2 ||| 2 ^ (shift - 1 - k))
  else (squared, state.2)

/-- Modelled from the spec: the body of `fixedLog2` (only its prototype is in
`fixed_point.h`).  A non-positive operand is a domain error; otherwise the
integer part comes from the leading bit, the operand is normalised into
`[2^shift, 2^(shift+1))`, and `shift` refinement iterations produce the
fractional bits. -/
def fixedLog2 (value : Int) (shift : Nat) : Except FixedError Int :=
  if shift > 31 then Except.error FixedError.range
  else if value ≤ 0 then Except.error FixedError.domain
  else
    let v := value.toNat
    let msb := msbPosition v
    let normalized := if shift ≤ msb then v >>> (msb - shift) else v <<< (shift - msb)
    let refined := (List.range shift).foldl (log2Step shift) (normalized, 0)
    let result := ((msb : Int) - (shift : Int)) * 2 ^ shift + (refined.2 : Int)
    if inInt32 result then Except.ok result else Except.error FixedError.overflow

/-! ## Helper lemmas -/

/-- Powers of two are positive. -/
theorem two_pow_pos_int (shift : Nat) : (0 : Int) < 2 ^ shift := by positivity

/-- Powers of two are monotone in the exponent. -/
theorem two_pow_le_int {a b : Nat} (h : a ≤ b) : (2 : Int) ^ a ≤ 2 ^ b :=
  pow_le_pow_right₀ (by norm_num) h

/-- Narrowing leaves a value of the signed 32-bit range unchanged. -/
theorem wrap32_of_inInt32 {n : Int} (h : inInt32 n) : wrap32 n = n := by
  unfold inInt32 INT32_MIN INT32_MAX at h
  unfold wrap32
  omega

/-- The mask `fixedOne - 1` has exactly the low `shift` bits set. -/
theorem toU32_mask (shift : Nat) (hs : shift ≤ 31) :
    toU32 (wrap32 (fixedOne shift - 1)) = 2 ^ shift - 1 := by
  interval_cases shift <;> decide

/-- The masked fraction is the non-negative remainder modulo `2^shift`. -/
theorem fractionalRaw_eq_emod (value : Int) (shift : Nat) (hs : shift ≤ 31) :
    fractionalRaw value shift = value % 2 ^ shift := by
  have hP : (0 : Int) < 2 ^ shift := two_pow_pos_int shift
  have hle : (2 : Int) ^ shift ≤ 2 ^ 31 := two_pow_le_int hs
  have hdvd : (2 : Int) ^ shift ∣ 4294967296 := by
    have : (2 : Int) ^ shift ∣ 2 ^ 32 := pow_dvd_pow 2 (by omega)
    simpa using this
  have hnn : (0 : Int) ≤ value % 4294967296 := Int.emod_nonneg _ (by norm_num)
  have hcast : ((toU32 value % 2 ^ shift : Nat) : Int) = value % 2 ^ shift := by
    unfold toU32
    push_cast
    rw [Int.toNat_of_nonneg hnn, Int.emod_emod_of_dvd _ hdvd]
  unfold fractionalRaw and32
  rw [toU32_mask shift hs, Nat.and_pow_two_sub_one_eq_mod]
  have h0 : (0 : Int) ≤ value % 2 ^ shift := Int.emod_nonneg _ (ne_of_gt hP)
  have h1 : value % 2 ^ shift < 2 ^ shift := Int.emod_lt_of_pos _ hP
  show wrap32 ((toU32 value % 2 ^ shift : Nat) : Int) = value % 2 ^ shift
  rw [hcast]
  apply wrap32_of_inInt32
  unfold inInt32 INT32_MIN INT32_MAX
  norm_num at hle
  omega

/-- The integer field is the Euclidean quotient by `2^shift`. -/
theorem component_eq_ediv (value : Int) (shift : Nat) :
    component value shift = value / 2 ^ shift := by
  unfold component sar32
  rw [Int.shiftRight_eq_div_pow]
  push_cast
  rfl

/-- For shifts up to 21 the product `fractionalRaw * 1000` stays below `2^31`
and the scaled fraction is the exact quotient. -/
theorem fractionalScaled_small (value : Int) (shift : Nat) (hs : shift ≤ 21) :
    inInt32 (fractionalRaw value shift * 1000) ∧
      fractionalScaled value shift = (value % 2 ^ shift) * 1000 / 2 ^ shift := by
  have hP : (0 : Int) < 2 ^ shift := two_pow_pos_int shift
  have hle : (2 : Int) ^ shift ≤ 2 ^ 21 := two_pow_le_int hs
  have h0 : (0 : Int) ≤ value % 2 ^ shift := Int.emod_nonneg _ (ne_of_gt hP)
  have h1 : value % 2 ^ shift < 2 ^ shift := Int.emod_lt_of_pos _ hP
  have hraw := fractionalRaw_eq_emod value shift (by omega)
  have hin : inInt32 (fractionalRaw value shift * 1000) := by
    rw [hraw]
    unfold inInt32 INT32_MIN INT32_MAX
    norm_num at hle
    omega
  refine ⟨hin, ?_⟩
  unfold fractionalScaled sar32
  rw [wrap32_of_inInt32 hin, hraw, Int.shiftRight_eq_div_pow]
  push_cast
  rfl

/-- The range bound `2^(31-s)` scaled back by `2^s` is `2^31`. -/
theorem two_pow_split (s : Nat) (hs : s ≤ 31) : (2 : ℚ) ^ (31 - s) * 2 ^ s = 2147483648 := by
  rw [← pow_add, Nat.sub_add_cancel hs]
  norm_num

/-- The reals a `fixed16_t` denotes at shift `s` are the multiples of `2^-s`
between `-2^(31-s)` and `2^(31-s) - 2^-s`. -/
theorem fixedValue_representable (s : Nat) (hs : s ≤ 31) (q : ℚ) :
    (∃ n : Int, inInt32 n ∧ fixedValue n s = q) ↔
      ((∃ k : Int, q = (k : ℚ) * ((2 : ℚ) ^ s)⁻¹) ∧
        -(2 : ℚ) ^ (31 - s) ≤ q ∧ q ≤ 2 ^ (31 - s) - ((2 : ℚ) ^ s)⁻¹) := by
  have hP : (0 : ℚ) < 2 ^ s := by positivity
  have hsplit := two_pow_split s hs
  have hinv : ((2 : ℚ) ^ s)⁻¹ * 2 ^ s = 1 := inv_mul_cancel₀ (ne_of_gt hP)
  constructor
  · rintro ⟨n, ⟨hlo, hhi⟩, rfl⟩
    unfold INT32_MIN at hlo
    unfold INT32_MAX at hhi
    have hlo' : (-2147483648 : ℚ) ≤ n := by exact_mod_cast hlo
    have hhi' : (n : ℚ) ≤ 2147483647 := by exact_mod_cast hhi
    refine ⟨⟨n, by unfold fixedValue; rw [div_eq_mul_inv]⟩, ?_, ?_⟩
    · unfold fixedValue
      rw [le_div_iff₀ hP]
      nlinarith
    · unfold fixedValue
      rw [div_le_iff₀ hP, sub_mul, hinv, hsplit]
      linarith
  · rintro ⟨⟨k, rfl⟩, hlo, hhi⟩
    have h1 := mul_le_mul_of_nonneg_right hlo (le_of_lt hP)
    have h2 := mul_le_mul_of_nonneg_right hhi (le_of_lt hP)
    rw [mul_assoc, hinv, mul_one] at h1 h2
    rw [sub_mul, hinv, hsplit] at h2
    rw [neg_mul, hsplit] at h1
    refine ⟨k, ⟨?_, ?_⟩, ?_⟩
    · unfold INT32_MIN
      have : ((-2147483648 : Int) : ℚ) ≤ k := by push_cast; linarith
      exact_mod_cast this
    · unfold INT32_MAX
      have : (k : ℚ) ≤ ((2147483647 : Int) : ℚ) := by push_cast; linarith
      exact_mod_cast this
    · unfold fixedValue
      rw [div_eq_mul_inv]

/-! ## Claims -/

/-- C3: for every 32-bit value and every shift in 0..31 the integer field
`component = value >> shift` is the floor of `value / 2^shift`, for negative
values as well as non-negative ones. -/
theorem component_eq_floor (value : Int) (shift : Nat) (_hv : inInt32 value) (_hs : shift ≤ 31) :
    component value shift = ⌊(value : ℚ) / 2 ^ shift⌋ := by
  have h := Rat.floor_intCast_div_natCast value (2 ^ shift)
  push_cast at h
  rw [h, component_eq_ediv]

/-- The encoding of -1.5 at shift 16 has integer field -2. -/
theorem component_eq_floor_witness :
    inInt32 (-98304) ∧ 16 ≤ 31 ∧ component (-98304) 16 = ⌊((-98304 : Int) : ℚ) / 2 ^ 16⌋ ∧
      component (-98304) 16 = -2 :=
  ⟨by decide, by decide, component_eq_floor (-98304) 16 (by decide) (by decide), by decide⟩

/-- C9: for every 32-bit value and every shift in 0..30, the integer field and
the masked fraction recombine to the value, `component * 2^shift +
fractionalRaw = value`, with `0 ≤ fractionalRaw < 2^shift`. -/
theorem split_lossless (value : Int) (shift : Nat) (_hv : inInt32 value) (hs : shift ≤ 30) :
    component value shift * 2 ^ shift + fractionalRaw value shift = value ∧
      0 ≤ fractionalRaw value shift ∧ fractionalRaw value shift < 2 ^ shift := by
  have hP : (0 : Int) < 2 ^ shift := two_pow_pos_int shift
  rw [fractionalRaw_eq_emod value shift (by omega), component_eq_ediv]
  refine ⟨?_, Int.emod_nonneg _ (ne_of_gt hP), Int.emod_lt_of_pos _ hP⟩
  rw [mul_comm]
  exact Int.ediv_add_emod value (2 ^ shift)

/-- The split of the encoding of -1.25 at shift 16: integer field -2, raw
fraction 49152. -/
theorem split_lossless_witness :
    inInt32 (-81920) ∧ 16 ≤ 30 ∧
      (component (-81920) 16 * 2 ^ 16 + fractionalRaw (-81920) 16 = -81920 ∧
        0 ≤ fractionalRaw (-81920) 16 ∧ fractionalRaw (-81920) 16 < 2 ^ 16) :=
  ⟨by decide, by decide, split_lossless (-81920) 16 (by decide) (by decide)⟩

/-- C8: for every 32-bit value and every shift in 0..21 the final
`fractionalPart` is the floor of `1000 * (value mod 2^shift) / 2^shift`, lies
in 0..999, and every intermediate (`1 << shift`, `fixedOne - 1`,
`fractionalRaw * 1000`, the negation inside `abs`) is in the signed 32-bit
range. -/
theorem fractionalPart_three_digits (value : Int) (shift : Nat) (_hv : inInt32 value)
    (hs : shift ≤ 21) :
    fractionalPart value shift = ⌊(1000 * (value % 2 ^ shift : Int) : ℚ) / 2 ^ shift⌋ ∧
      0 ≤ fractionalPart value shift ∧ fractionalPart value shift ≤ 999 ∧
      inInt32 (1 * 2 ^ shift) ∧ inInt32 (fixedOne shift - 1) ∧
      inInt32 (fractionalRaw value shift * 1000) ∧
      inInt32 (-fractionalScaled value shift) := by
  have hP : (0 : Int) < 2 ^ shift := two_pow_pos_int shift
  have hle : (2 : Int) ^ shift ≤ 2 ^ 21 := two_pow_le_int hs
  norm_num at hle
  have h0 : (0 : Int) ≤ value % 2 ^ shift := Int.emod_nonneg _ (ne_of_gt hP)
  have h1 : value % 2 ^ shift < 2 ^ shift := Int.emod_lt_of_pos _ hP
  obtain ⟨hin, hsc⟩ := fractionalScaled_small value shift hs
  have hq0 : 0 ≤ (value % 2 ^ shift) * 1000 / 2 ^ shift :=
    Int.ediv_nonneg (by omega) (le_of_lt hP)
  have hq1 : (value % 2 ^ shift) * 1000 / 2 ^ shift < 1000 :=
    Int.ediv_lt_of_lt_mul hP (by nlinarith)
  have hone : inInt32 ((1 : Int) * 2 ^ shift) := by
    unfold inInt32 INT32_MIN INT32_MAX
    omega
  have hfo : fixedOne shift = 2 ^ shift := by
    unfold fixedOne shl32
    rw [wrap32_of_inInt32 hone, one_mul]
  have hfp : fractionalPart value shift = (value % 2 ^ shift) * 1000 / 2 ^ shift := by
    unfold fractionalPart abs32
    rw [hsc]
    split_ifs with h2 h3
    · rfl
    · have hz : (value % 2 ^ shift) * 1000 / 2 ^ shift = 0 := by omega
      rw [hz]
      decide
    · rfl
  have hfl : ⌊(1000 * (value % 2 ^ shift : Int) : ℚ) / 2 ^ shift⌋ =
      (value % 2 ^ shift) * 1000 / 2 ^ shift := by
    have h := Rat.floor_intCast_div_natCast ((value % 2 ^ shift) * 1000) (2 ^ shift)
    have e : (1000 * (value % 2 ^ shift : Int) : ℚ) / 2 ^ shift =
        (((value % 2 ^ shift) * 1000 : Int) : ℚ) / ((2 ^ shift : Nat) : ℚ) := by
      push_cast
      ring
    rw [e, h]
    push_cast
    rfl
  refine ⟨by rw [hfp, hfl], by rw [hfp]; exact hq0, by rw [hfp]; omega, hone, ?_, hin, ?_⟩
  · rw [hfo]
    unfold inInt32 INT32_MIN INT32_MAX
    omega
  · rw [hsc]
    unfold inInt32 INT32_MIN INT32_MAX
    omega

/-- At `FIXED_SHIFT`, the encoding of -1.25 has fraction 750 and that of 0.5
has fraction 500. -/
theorem fractionalPart_three_digits_witness :
    inInt32 (-81920) ∧ FIXED_SHIFT ≤ 21 ∧ fractionalPart (-81920) FIXED_SHIFT = 750 ∧
      (fractionalPart (-81920) FIXED_SHIFT =
          ⌊(1000 * (-81920 % 2 ^ FIXED_SHIFT : Int) : ℚ) / 2 ^ FIXED_SHIFT⌋ ∧
        0 ≤ fractionalPart (-81920) FIXED_SHIFT ∧ fractionalPart (-81920) FIXED_SHIFT ≤ 999 ∧
        inInt32 (1 * 2 ^ FIXED_SHIFT) ∧ inInt32 (fixedOne FIXED_SHIFT - 1) ∧
        inInt32 (fractionalRaw (-81920) FIXED_SHIFT * 1000) ∧
        inInt32 (-fractionalScaled (-81920) FIXED_SHIFT)) :=
  ⟨by decide, by decide, by decide,
    fractionalPart_three_digits (-81920) FIXED_SHIFT (by decide) (by decide)⟩

/-- C10: when the position is off-screen (`x >= LCD_MAX_X` or
`y >= LCD_MAX_Y`) `write` makes no call on the driver, whatever
`clearBeforeWrite` is; otherwise it makes exactly `clear` (only when
`clearBeforeWrite` is true), then `setCursor(x, y)`, then `print(text)`. -/
theorem write_effect (lcdMaxX lcdMaxY x y : Nat) (text : List Char) (clearBeforeWrite : Bool)
    (lcd : List LcdOp) :
    ((lcdMaxX ≤ x ∨ lcdMaxY ≤ y) →
        write lcdMaxX lcdMaxY x y text clearBeforeWrite lcd = lcd) ∧
      ((x < lcdMaxX ∧ y < lcdMaxY) →
        write lcdMaxX lcdMaxY x y text clearBeforeWrite lcd =
          lcd ++ ((if clearBeforeWrite then [LcdOp.clear] else []) ++
            [LcdOp.setCursor x y, LcdOp.print text])) := by
  constructor
  · intro h
    have hn : ¬ (x < lcdMaxX ∧ y < lcdMaxY) := by omega
    simp [write, hn]
  · intro h
    cases clearBeforeWrite <;> simp [write, h]

/-- On a 16 x 2 display: column 16 is off-screen and nothing is sent, even
with `clearBeforeWrite`; at (0, 1) the three calls are made in order. -/
theorem write_effect_witness :
    write 16 2 16 0 ['a'] true [] = [] ∧
      write 16 2 0 1 ['a'] true [] =
        [LcdOp.clear, LcdOp.setCursor 0 1, LcdOp.print ['a']] ∧
      write 16 2 0 1 ['a'] false [LcdOp.clear] =
        [LcdOp.clear, LcdOp.setCursor 0 1, LcdOp.print ['a']] :=
  ⟨(write_effect 16 2 16 0 ['a'] true []).1 (Or.inl (by decide)),
    (write_effect 16 2 0 1 ['a'] true []).2 ⟨by decide, by decide⟩,
    (write_effect 16 2 0 1 ['a'] false [LcdOp.clear]).2 ⟨by decide, by decide⟩⟩

/-- C5: for every shift in 0..20 and every integer `i` such that `i * 2^shift`
fits in a signed 32-bit integer, `fromFixed(toFixed(i, shift), shift) = i`;
the integer field `printLabeledFixed` prints for that encoding is `i` too. -/
theorem toFixed_fromFixed_roundtrip (i : Int) (shift : Nat) (hs : shift ≤ 20)
    (hfit : inInt32 (i * 2 ^ shift)) :
    (toFixed i shift).map (fun v => fromFixed v shift) = Except.ok i ∧
      (toFixed i shift).map (fun v => component v shift) = Except.ok i := by
  have hP : (2 : Int) ^ shift ≠ 0 := ne_of_gt (two_pow_pos_int shift)
  have hn : ¬ shift > 31 := by omega
  have hq : i * 2 ^ shift / 2 ^ shift = i := Int.mul_ediv_cancel i hP
  have hc : component (i * 2 ^ shift) shift = i := by rw [component_eq_ediv, hq]
  have hf : fromFixed (i * 2 ^ shift) shift = i := hc
  simp [toFixed, hn, hfit, Except.map, hc, hf]

/-- The integer -3 at shift 20 round-trips. -/
theorem toFixed_fromFixed_roundtrip_witness :
    20 ≤ 20 ∧ inInt32 (-3 * 2 ^ 20) ∧
      ((toFixed (-3) 20).map (fun v => fromFixed v 20) = Except.ok (-3) ∧
        (toFixed (-3) 20).map (fun v => component v 20) = Except.ok (-3)) :=
  ⟨by decide, by decide, toFixed_fromFixed_roundtrip (-3) 20 (by decide) (by decide)⟩

/-- C4: a call outside its domain returns a failure, never a value:
`fixedDivide(a, 0, shift)` is the divide-by-zero error, `fixedLog2(v, shift)`
with `v <= 0` is the domain error (both for a shift in 0..31), `toFixed(i,
shift)` with `shift > 31` is the range error, and none of these results is
equal to any ordinary fixed value, whatever the shift. -/
theorem library_errors_signalled :
    (∀ (a : Int) (shift : Nat), shift ≤ 31 →
        fixedDivide a 0 shift = Except.error FixedError.divideByZero) ∧
      (∀ (v : Int) (shift : Nat), v ≤ 0 → shift ≤ 31 →
        fixedLog2 v shift = Except.error FixedError.domain) ∧
      (∀ (i : Int) (shift : Nat), 31 < shift →
        toFixed i shift = Except.error FixedError.range) ∧
      (∀ (a : Int) (shift : Nat) (r : Int), fixedDivide a 0 shift ≠ Except.ok r) ∧
      (∀ (v : Int) (shift : Nat) (r : Int), v ≤ 0 → fixedLog2 v shift ≠ Except.ok r) ∧
      (∀ (i : Int) (shift : Nat) (r : Int), 31 < shift → toFixed i shift ≠ Except.ok r) := by
  refine ⟨?_, ?_, ?_, ?_, ?_, ?_⟩
  · intro a shift hs
    have hn : ¬ shift > 31 := by omega
    simp [fixedDivide, hn]
  · intro v shift hv hs
    have hn : ¬ shift > 31 := by omega
    simp [fixedLog2, hn, hv]
  · intro i shift hs
    simp [toFixed, hs]
  · intro a shift r
    by_cases hs : shift > 31 <;> simp [fixedDivide, hs]
  · intro v shift r hv
    by_cases hs : shift > 31 <;> simp [fixedLog2, hs, hv]
  · intro i shift r hs
    simp [toFixed, hs]

/-- The error scenarios of the specification: 5 / 0 at shift 16, the
logarithm of -1 at shift 16, and a conversion at shift 40. -/
theorem library_errors_signalled_witness :
    fixedDivide 327680 0 16 = Except.error FixedError.divideByZero ∧
      fixedLog2 (-65536) 16 = Except.error FixedError.domain ∧
      toFixed 7 40 = Except.error FixedError.range :=
  ⟨library_errors_signalled.1 327680 16 (by decide),
    library_errors_signalled.2.1 (-65536) 16 (by decide) (by decide),
    library_errors_signalled.2.2.1 7 40 (by decide)⟩

/-- C6: a `fixed16_t` read at shift `s` (0..31) denotes `stored / 2^s`, so the
representable reals are exactly the multiples of `2^-s` from `-2^(31-s)` up to
`2^(31-s) - 2^-s`; at `FIXED_SHIFT = 16` the least value is -32768 and the
greatest is 2147483647/65536, which lies in [32767.9999847, 32767.9999848). -/
theorem fixed16_range :
    (∀ (s : Nat) (q : ℚ), s ≤ 31 →
      ((∃ n : Int, inInt32 n ∧ fixedValue n s = q) ↔
        ((∃ k : Int, q = (k : ℚ) * ((2 : ℚ) ^ s)⁻¹) ∧
          -(2 : ℚ) ^ (31 - s) ≤ q ∧ q ≤ 2 ^ (31 - s) - ((2 : ℚ) ^ s)⁻¹))) ∧
      (∀ n : Int, inInt32 n →
        fixedValue INT32_MIN FIXED_SHIFT ≤ fixedValue n FIXED_SHIFT ∧
          fixedValue n FIXED_SHIFT ≤ fixedValue INT32_MAX FIXED_SHIFT) ∧
      fixedValue INT32_MIN FIXED_SHIFT = -32768 ∧
      fixedValue INT32_MAX FIXED_SHIFT = 2147483647 / 65536 ∧
      (327679999847 : ℚ) / 10 ^ 7 ≤ fixedValue INT32_MAX FIXED_SHIFT ∧
      fixedValue INT32_MAX FIXED_SHIFT < (327679999848 : ℚ) / 10 ^ 7 := by
  refine ⟨fun s q hs => fixedValue_representable s hs q, ?_, ?_, ?_, ?_, ?_⟩
  · rintro n ⟨hlo, hhi⟩
    unfold INT32_MIN at hlo
    unfold INT32_MAX at hhi
    have hlo' : (-2147483648 : ℚ) ≤ n := by exact_mod_cast hlo
    have hhi' : (n : ℚ) ≤ 2147483647 := by exact_mod_cast hhi
    unfold fixedValue INT32_MIN INT32_MAX FIXED_SHIFT
    constructor
    · apply div_le_div_of_nonneg_right _ (by positivity)
      push_cast; linarith
    · apply div_le_div_of_nonneg_right _ (by positivity)
      push_cast; linarith
  all_goals norm_num [fixedValue, INT32_MIN, INT32_MAX, FIXED_SHIFT]

/-- The real -1.25 is representable at shift 16 (by -81920), above the least
value. -/
theorem fixed16_range_witness :
    (∃ n : Int, inInt32 n ∧ fixedValue n 16 = -5 / 4) ∧
      fixedValue INT32_MIN FIXED_SHIFT ≤ fixedValue (-81920) FIXED_SHIFT :=
  ⟨(fixed16_range.1 16 (-5 / 4) (by decide)).2
      ⟨⟨-81920, by norm_num⟩, by norm_num, by norm_num⟩,
    (fixed16_range.2.1 (-81920) (by decide)).1⟩
/-- C1: at shift 16 the fraction computed for 81920 (1.25) is 250, the one
computed for -81920 (-1.25) is 750, and -1.25 is rendered as "-2.750": the
fraction of a negative value is the two's-complement remainder, not the
magnitude shown for the positive value. -/
theorem negative_fraction_differs :
    inInt32 81920 ∧ inInt32 (-81920) ∧
      fractionalPart 81920 16 = 250 ∧ fractionalPart (-81920) 16 = 750 ∧
      fractionalPart (-81920) 16 ≠ fractionalPart 81920 16 ∧
      printLabeledFixedText [] 81920 16 = ['1', '.', '2', '5', '0'] ∧
      printLabeledFixedText [] (-81920) 16 = ['-', '2', '.', '7', '5', '0'] := by
  decide

/-- C2: for 32768 (0.5) at shift 16 the text is "0.500", a fractional field of
three digits, and for 328 (about 0.005) it is "0.05": the number printed
through `%02ld` ranges over 0..999. -/
theorem fixed_text_not_two_digits :
    inInt32 32768 ∧ inInt32 328 ∧
      printLabeledFixedText [] 32768 16 = ['0', '.', '5', '0', '0'] ∧
      fractionalPart 328 16 = 5 ∧
      printLabeledFixedText [] 328 16 = ['0', '.', '0', '5'] := by
  decide

/-- C7: for 4194303 at shift 22 (a non-negative value) the product
`fractionalRaw * 1000` wraps around, the final `fractionalPart` is -25 and the
text is "0.-25". -/
theorem fraction_negative_on_overflow :
    inInt32 4194303 ∧ 22 ≤ 31 ∧ fractionalRaw 4194303 22 = 4194303 ∧
      wrap32 (fractionalRaw 4194303 22 * 1000) = -100664296 ∧
      fractionalPart 4194303 22 = -25 ∧ fractionalPart 4194303 22 < 0 ∧
      printLabeledFixedText [] 4194303 22 = ['0', '.', '-', '2', '5'] := by
  decide

end Board
